import Mathlib

/-!
Shallow embedding of the retail pop-up cleaning script
(popupdata_cleaning.py): diacritic normalization, date parsing to
ISO-8601, encoding fallback resolution, schema and formatting
validation, and the export stage.  External library behaviour
(the Unicode NFKD tables, the tolerant pandas date parser, the
per-encoding CSV reader) is passed in as explicit function
parameters; everything else is translated from the source.
-/

namespace Popup

/-- Whitespace test of Python str.isspace / str.strip / str.split:
ASCII control whitespace, the field and line separators, and the
Unicode space characters. -/
def pySpace (c : Char) : Bool :=
  c ∈ [' ', '\t', '\n', '\x0b', '\x0c', '\r',
       '\x1c', '\x1d', '\x1e', '\x1f', '\x85', '\xa0',
       ' ', ' ', ' ', ' ', ' ', ' ',
       ' ', ' ', ' ', ' ', ' ', ' ',
       ' ', ' ', ' ', ' ', '　']

/-- Python str.strip with no argument: drop leading and trailing
whitespace characters. -/
def pyStrip (s : String) : String :=
  ⟨((s.data.dropWhile pySpace).reverse.dropWhile pySpace).reverse⟩

/-- Python str.lower, restricted to the ASCII range (sufficient for the
sentinel comparison against nan / none / null). -/
def pyLower (s : String) : String :=
  ⟨s.data.map Char.toLower⟩

/-- A cell of the loaded table: Python None, the float NaN missing
marker produced by the CSV loader for blank cells, or a string. -/
inductive CellValue where
  | none : CellValue
  | nan : CellValue
  | str : String → CellValue
deriving DecidableEq, Repr

/-- Python str(v) for the cell values that occur in the date columns:
str(None) is the text None, str(float nan) is the text nan, and a
string stringifies to itself. -/
def pyStr : CellValue → String
  | .none => "None"
  | .nan => "nan"
  | .str s => s

/-- A calendar date as a year, month, day triple (validity is a
separate predicate, as in the datetime constructor). -/
structure Date where
  year : Nat
  month : Nat
  day : Nat
deriving DecidableEq, Repr

/-- Gregorian leap-year rule used by datetime. -/
def isLeap (y : Nat) : Bool :=
  y % 4 == 0 && (y % 100 != 0 || y % 400 == 0)

/-- Number of days of a month, as validated by the datetime.date
constructor. -/
def daysInMonth (y m : Nat) : Nat :=
  if m = 2 then (if isLeap y then 29 else 28)
  else if m = 4 ∨ m = 6 ∨ m = 9 ∨ m = 11 then 30
  else 31

/-- The range check of the datetime.date constructor: year between 1
and 9999, month between 1 and 12, day between 1 and the month length. -/
def isValidDate (d : Date) : Bool :=
  decide (1 ≤ d.year ∧ d.year ≤ 9999 ∧ 1 ≤ d.month ∧ d.month ≤ 12 ∧
          1 ≤ d.day ∧ d.day ≤ daysInMonth d.year d.month)

/-- Decimal value of a digit string. -/
def digitsVal (l : List Char) : Nat :=
  l.foldl (fun a c => 10 * a + (c.toNat - 48)) 0

/-- Field recognizer of the strptime directives for day and month: one
or two digits whose value lies in the given inclusive range (this is
the set of strings matched by the compiled field patterns of the
strptime implementation). -/
def dayMonthField (lo hi : Nat) (l : List Char) : Option Nat :=
  if l.all Char.isDigit = true ∧ (l.length = 1 ∨ l.length = 2) ∧
     lo ≤ digitsVal l ∧ digitsVal l ≤ hi
  then some (digitsVal l) else none

/-- Split a character list at every slash, keeping empty segments, as
the literal slashes of the strptime format do. -/
def splitOnSlash : List Char → List (List Char)
  | [] => [[]]
  | c :: rest =>
    if c = '/' then [] :: splitOnSlash rest
    else
      match splitOnSlash rest with
      | [] => [[c]]
      | t :: ts => (c :: t) :: ts

/-- Century rule of strptime for a two-digit year: 0 to 68 maps into
the 2000s, 69 to 99 into the 1900s. -/
def yearFrom2 (y : Nat) : Nat :=
  if y ≤ 68 then 2000 + y else 1900 + y

/-- datetime.strptime against the format day/month/year where the year
field has exactly yearDigits digits (2 for the y directive, 4 for the
capital Y directive); returns the date when the whole string matches
and the resulting date passes the datetime.date range check, and
nothing on any ValueError. -/
def strptime_dmy (yearDigits : Nat) (s : String) : Option Date :=
  match splitOnSlash s.data with
  | [dp, mp, yp] =>
    match dayMonthField 1 31 dp, dayMonthField 1 12 mp with
    | some d, some m =>
      if yp.all Char.isDigit = true ∧ yp.length = yearDigits then
        let y := if yearDigits = 2 then yearFrom2 (digitsVal yp) else digitsVal yp
        let dt : Date := ⟨y, m, d⟩
        if isValidDate dt then some dt else none
      else none
    | _, _ => none
  | _ => none

/-- date.isoformat: zero-padded year-month-day rendering (the
percent-04d dash percent-02d dash percent-02d layout, faithful on the
range the date constructor admits). -/
def isoformat (d : Date) : String :=
  ⟨[Nat.digitChar (d.year / 1000 % 10), Nat.digitChar (d.year / 100 % 10),
    Nat.digitChar (d.year / 10 % 10), Nat.digitChar (d.year % 10), '-',
    Nat.digitChar (d.month / 10 % 10), Nat.digitChar (d.month % 10), '-',
    Nat.digitChar (d.day / 10 % 10), Nat.digitChar (d.day % 10)]⟩

/-- Decidable equality of results, for concrete evaluation of the
embedded pipeline. -/
instance exceptDecidableEq {E A : Type} [DecidableEq E] [DecidableEq A] :
    DecidableEq (Except E A)
  | .ok a, .ok b =>
    if h : a = b then .isTrue (by rw [h]) else .isFalse (by simp [h])
  | .error a, .error b =>
    if h : a = b then .isTrue (by rw [h]) else .isFalse (by simp [h])
  | .ok _, .error _ => .isFalse (by simp)
  | .error _, .ok _ => .isFalse (by simp)

/-- Full match of the anchored ISO_RE pattern: four digits, dash, two
digits, dash, two digits. -/
def isoMatch (s : String) : Bool :=
  match s.data with
  | [y1, y2, y3, y4, h1, m1, m2, h2, d1, d2] =>
    y1.isDigit && y2.isDigit && y3.isDigit && y4.isDigit &&
    h1 == '-' && m1.isDigit && m2.isDigit && h2 == '-' &&
    d1.isDigit && d2.isDigit
  | _ => false

/-- Sentinel strings treated as blank by parse_date_ddmmy. -/
def sentinels : List String := ["nan", "none", "null"]

/-- Body of parse_date_ddmmy after stringify and strip: the empty
string and the lowercased sentinels map to no date, then the strict
day/month/two-digit-year format, then the strict
day/month/four-digit-year format, and finally the tolerant dayfirst
parser (passed in as fallback, returning no date when it coerces to
NaT). -/
def parseTrimmed (fallback : String → Option Date) (s : String) : Option Date :=
  if s = "" ∨ pyLower s ∈ sentinels then Option.none
  else
    match strptime_dmy 2 s with
    | some d => some d
    | Option.none =>
      match strptime_dmy 4 s with
      | some d => some d
      | Option.none => fallback s

/-- parse_date_ddmmy from the source: None maps directly to no date;
every other value is stringified, stripped and handed to the trimmed
parse chain. -/
def parse_date_ddmmy (fallback : String → Option Date) : CellValue → Option Date
  | .none => Option.none
  | v => parseTrimmed fallback (pyStrip (pyStr v))

/-- Rendering of a parsed result into the iso columns: isoformat when a
date is present, the empty string otherwise. -/
def isoCell : Option Date → String
  | some d => isoformat d
  | Option.none => ""

/-- Helper of pySplit: walk the characters keeping the current token
reversed in the accumulator, emitting a token at each whitespace run
boundary. -/
def pySplitAux : List Char → List Char → List (List Char)
  | [], acc => if acc = [] then [] else [acc.reverse]
  | c :: rest, acc =>
    if pySpace c then
      if acc = [] then pySplitAux rest [] else acc.reverse :: pySplitAux rest []
    else pySplitAux rest (c :: acc)

/-- Python str.split with no argument: the maximal whitespace-free
runs, with no empty tokens. -/
def pySplit (l : List Char) : List (List Char) :=
  pySplitAux l []

/-- Python single-space join of a token list. -/
def joinTokens : List (List Char) → List Char
  | [] => []
  | [t] => t
  | t :: ts => t ++ ' ' :: joinTokens ts

/-- The whitespace collapse of remove_diacritics: join the split of the
string with single spaces. -/
def collapseWs (l : List Char) : List Char :=
  joinTokens (pySplit l)

/-- String body of remove_diacritics: compatibility-decompose via the
supplied nfkd function, drop every character the supplied combining
classifier marks as a combining mark, then collapse whitespace. -/
def stripNormalize (nfkd : String → String) (combining : Char → Bool) (s : String) : String :=
  ⟨collapseWs ((nfkd s).data.filter (fun c => !combining c))⟩

/-- remove_diacritics from the source: rewrite string cells through
stripNormalize and return every non-string value unchanged. -/
def remove_diacritics (nfkd : String → String) (combining : Char → Bool) : CellValue → CellValue
  | .str s => .str (stripNormalize nfkd combining s)
  | v => v

/-- The loaded table: named columns in order, each holding the cells of
its rows. -/
structure DataFrame where
  cols : List (String × List CellValue)
deriving DecidableEq, Repr

/-- Column labels in order. -/
def colNames (df : DataFrame) : List String :=
  df.cols.map Prod.fst

/-- Column lookup by label. -/
def getCol (df : DataFrame) (name : String) : Option (List CellValue) :=
  (df.cols.find? (fun p => p.1 == name)).map Prod.snd

/-- Column assignment: overwrite in place when the label exists,
append at the end otherwise, as data-frame item assignment does. -/
def setCol (df : DataFrame) (name : String) (vals : List CellValue) : DataFrame :=
  if name ∈ colNames df then
    ⟨df.cols.map (fun p => if p.1 = name then (name, vals) else p)⟩
  else ⟨df.cols ++ [(name, vals)]⟩

/-- Row count of the table (length of the leading column). -/
def nRows (df : DataFrame) : Nat :=
  match df.cols with
  | [] => 0
  | p :: _ => p.2.length

/-- Rectangularity: every column has the common row count. -/
def Rect (df : DataFrame) : Prop :=
  ∀ p ∈ df.cols, p.2.length = nRows df

instance rectDecidable (df : DataFrame) : Decidable (Rect df) :=
  List.decidableBAll _ _

/-- Object-dtype test of select_dtypes for this cell model: a column
that holds at least one string is an object column. -/
def isObjectCol (vals : List CellValue) : Bool :=
  vals.any (fun v => match v with | .str _ => true | _ => false)

/-- The diacritic-normalization loop of main: apply remove_diacritics
to every cell of every object column. -/
def normalizeStage (nfkd : String → String) (combining : Char → Bool) (df : DataFrame) : DataFrame :=
  ⟨df.cols.map (fun p =>
    if isObjectCol p.2 then (p.1, p.2.map (remove_diacritics nfkd combining)) else p)⟩

/-- The two required date columns of main. -/
def requiredCols : List String := ["start_date", "end_date"]

/-- Failure modes of main after the load: the KeyError naming the
missing required columns, the KeyError of a data-frame label lookup,
and the ValueError of the ISO formatting check carrying the sampled
offending rows of each column. -/
inductive PipeError where
  | missingColumns : List String → PipeError
  | keyError : String → PipeError
  | isoCheckFailed : List (CellValue × CellValue × CellValue) →
                     List (CellValue × CellValue × CellValue) → PipeError
deriving DecidableEq, Repr

/-- The offending-row test of the validator mask: a non-empty iso cell
that fails the ISO_RE match (iso cells are always strings here, as the
pipeline writes them). -/
def isoBad : CellValue → Bool
  | .str s => decide (s ≠ "") && !isoMatch s
  | _ => false

/-- The offending-row selection of the validator for one date column:
the event id, raw value and produced iso value of every row whose iso
cell is non-empty and fails the pattern; a missing label raises
KeyError as the data-frame loc selection does. -/
def badRows (df : DataFrame) (rawName isoName : String) :
    Except PipeError (List (CellValue × CellValue × CellValue)) :=
  match getCol df "event_id", getCol df rawName, getCol df isoName with
  | some ev, some raw, some iso =>
    .ok ((ev.zip (raw.zip iso)).filter (fun t => isoBad t.2.2))
  | Option.none, _, _ => .error (.keyError "event_id")
  | some _, Option.none, _ => .error (.keyError rawName)
  | some _, some _, Option.none => .error (.keyError isoName)

/-- Parsed-and-rendered iso column built from a raw date column. -/
def isoCells (fallback : String → Option Date) (col : List CellValue) : List CellValue :=
  col.map (fun v => CellValue.str (isoCell (parse_date_ddmmy fallback v)))

/-- The date-standardization assignments of main: parse both required
columns and append the two iso columns (a KeyError surfaces when a
date column is unexpectedly absent, as the data-frame lookup would). -/
def addIsoColumns (fallback : String → Option Date) (df : DataFrame) :
    Except PipeError DataFrame :=
  match getCol df "start_date", getCol df "end_date" with
  | some sCol, some eCol =>
    .ok (setCol (setCol df "start_date_iso" (isoCells fallback sCol))
           "end_date_iso" (isoCells fallback eCol))
  | Option.none, _ => .error (.keyError "start_date")
  | some _, Option.none => .error (.keyError "end_date")

/-- The unparsable diagnostic of main for one column: rows whose parse
is absent while the stringified, stripped raw value is non-empty,
counted over the zip of the parsed list with the raw column. -/
def unparsableCount (fallback : String → Option Date) (col : List CellValue) : Nat :=
  ((col.map (parse_date_ddmmy fallback)).zip col).countP
    (fun t => t.1.isNone && decide (pyStrip (pyStr t.2) ≠ ""))

/-- The ISO formatting check of main: collect the offending rows of
both date columns and raise the ValueError with the first five samples
of each when either set is non-empty. -/
def validate (df : DataFrame) : Except PipeError Unit :=
  match badRows df "start_date" "start_date_iso" with
  | .error e => .error e
  | .ok bs =>
    match badRows df "end_date" "end_date_iso" with
    | .error e => .error e
    | .ok be =>
      if bs ≠ [] ∨ be ≠ [] then .error (.isoCheckFailed (bs.take 5) (be.take 5))
      else .ok ()

/-- The export call at the end of main: the final frame together with
the to_csv arguments (utf-8-sig encoding, no index column, the default
header row). -/
structure ExportResult where
  frame : DataFrame
  encoding : String
  index : Bool
  header : Bool
deriving DecidableEq, Repr

/-- The post-load body of main: normalize diacritics over the object
columns, check the required date columns and raise the KeyError naming
all missing ones, append the parsed iso columns, run the formatting
validation, and export with utf-8-sig and no index. -/
def runPipeline (nfkd : String → String) (combining : Char → Bool)
    (fallback : String → Option Date) (df0 : DataFrame) :
    Except PipeError ExportResult :=
  let df1 := normalizeStage nfkd combining df0
  let missing := requiredCols.filter (fun c => decide (c ∉ colNames df1))
  if missing ≠ [] then .error (.missingColumns missing)
  else
    match addIsoColumns fallback df1 with
    | .error e => .error e
    | .ok df2 =>
      match validate df2 with
      | .error e => .error e
      | .ok _ => .ok ⟨df2, "utf-8-sig", false, true⟩

/-- Column labels of a finished run, for concrete evaluation. -/
def pipelineColNames (r : Except PipeError ExportResult) : Option (List String) :=
  r.toOption.map (fun res => colNames res.frame)

/-- Column content of a finished run, for concrete evaluation. -/
def pipelineGetCol (r : Except PipeError ExportResult) (name : String) :
    Option (List CellValue) :=
  r.toOption.bind (fun res => getCol res.frame name)

/-- The candidate list of the encoding resolver: the detector guess
followed by the four fixed fallbacks, with falsy entries (absent guess
or empty name) skipped, order kept, duplicates kept. -/
def encodingCandidates (guess : Option String) : List String :=
  (([guess, some "utf-8-sig", some "utf-8", some "latin1",
     some "windows-1252"].filterMap id).filter (fun e => e ≠ ""))

/-- The read loop of main over the explicit candidates: accept the
first candidate the reader parses, remembering the error of the most
recent failed attempt. -/
def readLoop {E D : Type} (tryRead : Option String → Except E D) :
    List String → Option E → Except (Option E) (D × String)
  | [], lastErr => .error lastErr
  | e :: rest, _lastErr =>
    match tryRead (some e) with
    | .ok d => .ok (d, e)
    | .error err => readLoop tryRead rest (some err)

/-- The whole encoding resolution of main: run the candidate loop and,
when every candidate failed, make one final attempt with no explicit
encoding; when that also fails, re-raise the last error of the
candidate loop (the error of the default attempt is discarded). The
accepted encoding is returned alongside the parsed data, mirroring the
success report. -/
def resolveEncoding {E D : Type} (tryRead : Option String → Except E D)
    (guess : Option String) : Except (Option E) (D × Option String) :=
  match readLoop tryRead (encodingCandidates guess) Option.none with
  | .ok (d, e) => .ok (d, some e)
  | .error lastErr =>
    match tryRead Option.none with
    | .ok d => .ok (d, Option.none)
    | .error _ => .error lastErr

/-- Identity decomposition: the trivial nfkd instance used for concrete
runs of the embedded pipeline (every character taken as already
decomposed). -/
def idNfkd : String → String := fun s => s

/-- Combining classifier marking nothing, for concrete runs. -/
def noCombining : Char → Bool := fun _ => false

/-- Tolerant parser that always abstains, for concrete runs. -/
def noFallback : String → Option Date := fun _ => Option.none

/-- Tolerant parser returning a fixed valid date, for concrete runs. -/
def constFallback : String → Option Date := fun _ => some ⟨2024, 1, 1⟩

/-- Test for the NaN missing marker. -/
def isNanCell : CellValue → Bool
  | .nan => true
  | _ => false

/-- A small concrete input table with the three relevant columns. -/
def sampleFrame : DataFrame :=
  ⟨[("event_id", [.str "1", .str "2"]),
    ("start_date", [.str "05/03/24", .nan]),
    ("end_date", [.str "06/03/2024", .str ""])]⟩

/-- The export the pipeline produces from sampleFrame. -/
def sampleExport : ExportResult :=
  ⟨⟨[("event_id", [.str "1", .str "2"]),
     ("start_date", [.str "05/03/24", .nan]),
     ("end_date", [.str "06/03/2024", .str ""]),
     ("start_date_iso", [.str "2024-03-05", .str ""]),
     ("end_date_iso", [.str "2024-03-06", .str ""])]⟩,
   "utf-8-sig", false, true⟩

/-- A concrete input table that already carries a column named
start_date_iso. -/
def isoClashFrame : DataFrame :=
  ⟨[("event_id", [.str "1"]),
    ("start_date", [.str "05/03/24"]),
    ("end_date", [.str "06/03/24"]),
    ("start_date_iso", [.str "junk"])]⟩

/-- A concrete input table lacking only the end_date column. -/
def missingEndFrame : DataFrame :=
  ⟨[("event_id", [.str "1"]),
    ("start_date", [.str "05/03/24"])]⟩

/-- A reader that parses only under latin1, with distinct errors
everywhere else. -/
def latin1Reader : Option String → Except String Nat :=
  fun e =>
    match e with
    | some "latin1" => .ok 7
    | some e2 => .error e2
    | Option.none => .error "default-error"

/-- A reader that fails under every encoding, reporting the encoding
name (or a distinct default marker) as the error. -/
def alwaysFailReader : Option String → Except String Nat :=
  fun e =>
    match e with
    | some e2 => .error e2
    | Option.none => .error "default-error"

/-! Helper lemmas about the table operations. -/

theorem colNames_normalizeStage (nfkd : String → String) (combining : Char → Bool)
    (df : DataFrame) : colNames (normalizeStage nfkd combining df) = colNames df := by
  unfold colNames normalizeStage
  simp only [List.map_map]
  apply List.map_congr_left
  intro p _
  by_cases h : isObjectCol p.2 = true <;> simp [h]

theorem nRows_normalizeStage (nfkd : String → String) (combining : Char → Bool)
    (df : DataFrame) : nRows (normalizeStage nfkd combining df) = nRows df := by
  unfold nRows normalizeStage
  cases df.cols with
  | nil => rfl
  | cons p t => by_cases h : isObjectCol p.2 = true <;> simp [h]

theorem Rect_normalizeStage (nfkd : String → String) (combining : Char → Bool)
    (df : DataFrame) (h : Rect df) : Rect (normalizeStage nfkd combining df) := by
  intro p hp
  rw [nRows_normalizeStage]
  unfold normalizeStage at hp
  simp only [List.mem_map] at hp
  obtain ⟨q, hq, hqe⟩ := hp
  by_cases hob : isObjectCol q.2 = true
  · simp [hob] at hqe
    subst hqe
    simpa using h q hq
  · simp [hob] at hqe
    subst hqe
    exact h q hq

theorem getCol_isSome_of_mem {df : DataFrame} {name : String}
    (h : name ∈ colNames df) : ∃ c, getCol df name = some c := by
  unfold colNames at h
  simp only [List.mem_map] at h
  obtain ⟨p, hp, hpe⟩ := h
  have hs : (df.cols.find? (fun q => q.1 == name)).isSome = true := by
    rw [List.find?_isSome]
    exact ⟨p, hp, by simp [hpe]⟩
  obtain ⟨q, hq⟩ := Option.isSome_iff_exists.mp hs
  exact ⟨q.2, by simp [getCol, hq]⟩

theorem length_getCol {df : DataFrame} {name : String} {c : List CellValue}
    (hr : Rect df) (h : getCol df name = some c) : c.length = nRows df := by
  unfold getCol at h
  cases hf : df.cols.find? (fun q => q.1 == name) with
  | none => simp [hf] at h
  | some q =>
    simp [hf] at h
    have := List.mem_of_find?_eq_some hf
    subst h
    exact hr q this

theorem cols_ne_nil_of_getCol {df : DataFrame} {name : String} {c : List CellValue}
    (h : getCol df name = some c) : df.cols ≠ [] := by
  intro he
  unfold getCol at h
  rw [he] at h
  simp [List.find?] at h

theorem find?_map_set (l : List (String × List CellValue)) (name : String)
    (vals : List CellValue) (hp : ∃ p ∈ l, p.1 = name) :
    (l.map (fun p => if p.1 = name then (name, vals) else p)).find?
      (fun q => q.1 == name) = some (name, vals) := by
  induction l with
  | nil => simp at hp
  | cons q t ih =>
    by_cases hq : q.1 = name
    · simp [List.find?, hq]
    · have hb : (q.1 == name) = false := by simp [hq]
      simp only [List.map_cons, hq, if_false, List.find?, hb]
      apply ih
      obtain ⟨p, hpm, hpe⟩ := hp
      rcases List.mem_cons.mp hpm with h1 | h2
      · exact absurd (h1 ▸ hpe) hq
      · exact ⟨p, h2, hpe⟩

theorem find?_map_set_ne (l : List (String × List CellValue)) {m name : String}
    (vals : List CellValue) (h : m ≠ name) :
    (l.map (fun p => if p.1 = name then (name, vals) else p)).find?
      (fun q => q.1 == m) = l.find? (fun q => q.1 == m) := by
  induction l with
  | nil => rfl
  | cons q t ih =>
    by_cases hq : q.1 = name
    · have hbm : (q.1 == m) = false := by
        simp only [beq_eq_false_iff_ne, ne_eq]
        intro he
        exact h (he.symm.trans hq)
      have hnm : (name == m) = false := by
        simp only [beq_eq_false_iff_ne, ne_eq]
        intro he
        exact h he.symm
      simp [List.find?, hq, hnm, hbm, ih]
    · simp only [List.map_cons, hq, if_false, List.find?]
      cases hb : (q.1 == m) with
      | true => rfl
      | false => exact ih

theorem getCol_setCol_self (df : DataFrame) (name : String) (vals : List CellValue) :
    getCol (setCol df name vals) name = some vals := by
  unfold setCol
  by_cases h : name ∈ colNames df
  · simp only [h, if_true]
    unfold colNames at h
    simp only [List.mem_map] at h
    obtain ⟨p, hp, hpe⟩ := h
    unfold getCol
    rw [find?_map_set df.cols name vals ⟨p, hp, hpe⟩]
    rfl
  · simp only [h, if_false]
    unfold getCol
    rw [List.find?_append]
    have hn : df.cols.find? (fun q => q.1 == name) = Option.none := by
      rw [List.find?_eq_none]
      intro q hq hqn
      exact h (by
        unfold colNames
        simp only [List.mem_map]
        exact ⟨q, hq, by simpa using hqn⟩)
    simp [hn, List.find?]

theorem getCol_setCol_ne (df : DataFrame) {m n : String} (vals : List CellValue)
    (h : m ≠ n) : getCol (setCol df n vals) m = getCol df m := by
  unfold setCol
  by_cases hm : n ∈ colNames df
  · simp only [hm, if_true]
    unfold getCol
    rw [find?_map_set_ne df.cols vals h]
  · simp only [hm, if_false]
    unfold getCol
    rw [List.find?_append]
    have hnone : [(n, vals)].find? (fun q => q.1 == m) = Option.none := by
      simp [List.find?, show (n == m) = false by
        simp only [beq_eq_false_iff_ne, ne_eq]
        intro he
        exact h he.symm]
    rw [hnone]
    cases df.cols.find? (fun q => q.1 == m) <;> rfl

theorem colNames_setCol_mem {df : DataFrame} {name : String} (vals : List CellValue)
    (h : name ∈ colNames df) : colNames (setCol df name vals) = colNames df := by
  unfold setCol
  simp only [h, if_true]
  unfold colNames
  simp only [List.map_map]
  apply List.map_congr_left
  intro p _
  by_cases hp : p.1 = name <;> simp [hp]

theorem colNames_setCol_not_mem {df : DataFrame} {name : String} (vals : List CellValue)
    (h : name ∉ colNames df) : colNames (setCol df name vals) = colNames df ++ [name] := by
  unfold setCol
  simp only [h, if_false]
  unfold colNames
  simp

theorem mem_colNames_setCol {df : DataFrame} {m name : String} (vals : List CellValue)
    (h : m ∈ colNames df) : m ∈ colNames (setCol df name vals) := by
  by_cases hn : name ∈ colNames df
  · rwa [colNames_setCol_mem vals hn]
  · rw [colNames_setCol_not_mem vals hn]
    exact List.mem_append_left _ h

theorem nRows_setCol {df : DataFrame} {vals : List CellValue} (name : String)
    (hne : df.cols ≠ []) (hv : vals.length = nRows df) :
    nRows (setCol df name vals) = nRows df := by
  unfold setCol
  by_cases h : name ∈ colNames df
  · simp only [h, if_true]
    unfold nRows
    cases hc : df.cols with
    | nil => exact absurd hc hne
    | cons p t =>
      by_cases hp : p.1 = name
      · simp only [List.map_cons, hp, if_true]
        rw [hv]
        unfold nRows
        rw [hc]
      · simp [hp]
  · simp only [h, if_false]
    unfold nRows
    cases hc : df.cols with
    | nil => exact absurd hc hne
    | cons p t => simp

theorem Rect_setCol {df : DataFrame} {vals : List CellValue} (name : String)
    (hne : df.cols ≠ []) (hv : vals.length = nRows df) (hr : Rect df) :
    Rect (setCol df name vals) := by
  intro p hp
  rw [nRows_setCol name hne hv]
  unfold setCol at hp
  by_cases h : name ∈ colNames df
  · simp only [h, if_true] at hp
    simp only [List.mem_map] at hp
    obtain ⟨q, hq, hqe⟩ := hp
    by_cases hqn : q.1 = name
    · simp only [hqn, if_true] at hqe
      subst hqe
      exact hv
    · simp only [hqn, if_false] at hqe
      subst hqe
      exact hr q hq
  · simp only [h, if_false] at hp
    rcases List.mem_append.mp hp with hq | hq
    · exact hr p hq
    · simp only [List.mem_singleton] at hq
      subst hq
      exact hv

theorem cols_ne_nil_setCol (df : DataFrame) (name : String) (vals : List CellValue)
    (h : df.cols ≠ []) : (setCol df name vals).cols ≠ [] := by
  unfold setCol
  by_cases hn : name ∈ colNames df <;> simp [hn, h]

/-! Helper lemmas about dates and their ISO rendering. -/

theorem strptime_dmy_valid {k : Nat} {s : String} {d : Date}
    (h : strptime_dmy k s = some d) : isValidDate d = true := by
  unfold strptime_dmy at h
  split at h
  case h_2 => simp at h
  split at h
  case h_2 => simp at h
  dsimp only at h
  split at h
  case isFalse => simp at h
  split at h
  all_goals
    simp only [Option.ite_none_right_eq_some, Option.some_inj] at h
    obtain ⟨hv, he⟩ := h
    rw [← he]
    exact hv

theorem parseTrimmed_valid {fb : String → Option Date}
    (hfb : ∀ s d, fb s = some d → isValidDate d = true) :
    ∀ s d, parseTrimmed fb s = some d → isValidDate d = true := by
  intro s d h
  unfold parseTrimmed at h
  split at h
  · exact absurd h (by simp)
  · split at h
    · rename_i heq
      simp only [Option.some_inj] at h
      rw [← h]
      exact strptime_dmy_valid heq
    · split at h
      · rename_i heq
        simp only [Option.some_inj] at h
        rw [← h]
        exact strptime_dmy_valid heq
      · exact hfb _ _ h

theorem parse_date_ddmmy_eq_none (fb : String → Option Date) :
    parse_date_ddmmy fb CellValue.none = Option.none := rfl

theorem parse_date_ddmmy_eq_nan (fb : String → Option Date) :
    parse_date_ddmmy fb CellValue.nan = parseTrimmed fb (pyStrip (pyStr CellValue.nan)) := rfl

theorem parse_date_ddmmy_eq_str (fb : String → Option Date) (s : String) :
    parse_date_ddmmy fb (CellValue.str s) = parseTrimmed fb (pyStrip s) := rfl

theorem parse_date_ddmmy_valid {fb : String → Option Date}
    (hfb : ∀ s d, fb s = some d → isValidDate d = true) :
    ∀ v d, parse_date_ddmmy fb v = some d → isValidDate d = true := by
  intro v d h
  cases v with
  | none => exact absurd h (by simp [parse_date_ddmmy])
  | nan =>
    rw [parse_date_ddmmy_eq_nan] at h
    exact parseTrimmed_valid hfb _ _ h
  | str s0 =>
    rw [parse_date_ddmmy_eq_str] at h
    exact parseTrimmed_valid hfb _ _ h

theorem digitChar_mod_isDigit (n : Nat) : (Nat.digitChar (n % 10)).isDigit = true := by
  have h : n % 10 < 10 := Nat.mod_lt _ (by decide)
  set k := n % 10 with hk
  interval_cases k <;> decide

theorem isoMatch_isoformat {d : Date} (_h : isValidDate d = true) :
    isoMatch (isoformat d) = true := by
  unfold isoMatch isoformat
  simp only [digitChar_mod_isDigit, Bool.and_true, Bool.true_and, beq_self_eq_true]

/-! Helper lemmas about the pipeline stages. -/

theorem isoBad_isoCells {fb : String → Option Date}
    (hfb : ∀ s d, fb s = some d → isValidDate d = true) {col : List CellValue}
    {c : CellValue} (hc : c ∈ isoCells fb col) : isoBad c = false := by
  unfold isoCells at hc
  simp only [List.mem_map] at hc
  obtain ⟨v, _, hv⟩ := hc
  rw [← hv]
  cases hp : parse_date_ddmmy fb v with
  | none => simp [isoBad, isoCell, hp]
  | some d =>
    have hval := parse_date_ddmmy_valid hfb v d hp
    simp [isoBad, isoCell, hp, isoMatch_isoformat hval]

theorem addIsoColumns_ok {fb : String → Option Date} {df df2 : DataFrame}
    (h : addIsoColumns fb df = .ok df2) :
    ∃ sCol eCol, getCol df "start_date" = some sCol ∧
      getCol df "end_date" = some eCol ∧
      df2 = setCol (setCol df "start_date_iso" (isoCells fb sCol))
              "end_date_iso" (isoCells fb eCol) := by
  unfold addIsoColumns at h
  split at h
  case h_1 sCol eCol hs he =>
    simp only [Except.ok.injEq] at h
    exact ⟨sCol, eCol, hs, he, h.symm⟩
  case h_2 => simp at h
  case h_3 => simp at h

theorem addIsoColumns_eq_ok {fb : String → Option Date} {df : DataFrame}
    {sCol eCol : List CellValue} (hs : getCol df "start_date" = some sCol)
    (he : getCol df "end_date" = some eCol) :
    addIsoColumns fb df = .ok (setCol (setCol df "start_date_iso" (isoCells fb sCol))
      "end_date_iso" (isoCells fb eCol)) := by
  unfold addIsoColumns
  rw [hs, he]

theorem badRows_eq_ok {df : DataFrame} {rawName isoName : String}
    {ev raw iso : List CellValue} (hev : getCol df "event_id" = some ev)
    (hraw : getCol df rawName = some raw) (hiso : getCol df isoName = some iso) :
    badRows df rawName isoName =
      .ok ((ev.zip (raw.zip iso)).filter (fun t => isoBad t.2.2)) := by
  unfold badRows
  rw [hev, hraw, hiso]

theorem badRows_ok {df : DataFrame} {rawName isoName : String}
    {bs : List (CellValue × CellValue × CellValue)}
    (h : badRows df rawName isoName = .ok bs) :
    ∃ ev raw iso, getCol df "event_id" = some ev ∧
      getCol df rawName = some raw ∧ getCol df isoName = some iso ∧
      bs = (ev.zip (raw.zip iso)).filter (fun t => isoBad t.2.2) := by
  unfold badRows at h
  split at h
  case h_1 ev raw iso hev hraw hiso =>
    simp only [Except.ok.injEq] at h
    exact ⟨ev, raw, iso, hev, hraw, hiso, h.symm⟩
  case h_2 => simp at h
  case h_3 => simp at h
  case h_4 => simp at h

theorem unparsableCount_eq_countP (fb : String → Option Date) (col : List CellValue) :
    unparsableCount fb col =
      col.countP (fun v =>
        (parse_date_ddmmy fb v).isNone && decide (pyStrip (pyStr v) ≠ "")) := by
  unfold unparsableCount
  induction col with
  | nil => rfl
  | cons v t ih =>
    simp only [List.map_cons, List.zip_cons_cons, List.countP_cons, ih]

theorem runPipeline_eq_of_stages {nfkd : String → String} {combining : Char → Bool}
    {fb : String → Option Date} {df df2 : DataFrame}
    {bs be : List (CellValue × CellValue × CellValue)}
    (hmiss : requiredCols.filter
      (fun c => decide (c ∉ colNames (normalizeStage nfkd combining df))) = [])
    (hadd : addIsoColumns fb (normalizeStage nfkd combining df) = .ok df2)
    (hbs : badRows df2 "start_date" "start_date_iso" = .ok bs)
    (hbe : badRows df2 "end_date" "end_date_iso" = .ok be) :
    runPipeline nfkd combining fb df =
      if bs ≠ [] ∨ be ≠ []
      then .error (.isoCheckFailed (bs.take 5) (be.take 5))
      else .ok ⟨df2, "utf-8-sig", false, true⟩ := by
  unfold runPipeline
  dsimp only
  rw [hmiss]
  simp only [ne_eq, not_true_eq_false, not_false_eq_true, if_neg, if_pos]
  rw [hadd]
  dsimp only
  unfold validate
  rw [hbs, hbe]
  dsimp only
  by_cases h : bs ≠ [] ∨ be ≠ [] <;> simp [h]

theorem pySplitAux_nil (acc : List Char) :
    pySplitAux [] acc = if acc = [] then [] else [acc.reverse] := rfl

theorem pySplitAux_cons (c : Char) (rest acc : List Char) :
    pySplitAux (c :: rest) acc =
      if pySpace c then
        (if acc = [] then pySplitAux rest [] else acc.reverse :: pySplitAux rest [])
      else pySplitAux rest (c :: acc) := rfl

theorem pySplitAux_props : ∀ (l acc : List Char),
    (∀ c ∈ acc, pySpace c = false) →
    ∀ t ∈ pySplitAux l acc, t ≠ [] ∧ ∀ c ∈ t, pySpace c = false := by
  intro l
  induction l with
  | nil =>
    intro acc hacc t ht
    unfold pySplitAux at ht
    by_cases h : acc = []
    · simp [h] at ht
    · simp only [h, if_false, List.mem_singleton] at ht
      subst ht
      constructor
      · simpa using h
      · intro c hc
        exact hacc c (List.mem_reverse.mp hc)
  | cons c rest ih =>
    intro acc hacc t ht
    unfold pySplitAux at ht
    by_cases hsp : pySpace c = true
    · simp only [hsp, if_true] at ht
      by_cases h : acc = []
      · simp only [h, if_true] at ht
        exact ih [] (by simp) t ht
      · simp only [h, if_false, List.mem_cons] at ht
        rcases ht with ht | ht
        · subst ht
          constructor
          · simpa using h
          · intro x hx
            exact hacc x (List.mem_reverse.mp hx)
        · exact ih [] (by simp) t ht
    · simp only [Bool.not_eq_true] at hsp
      simp only [hsp, if_false] at ht
      refine ih (c :: acc) ?_ t ht
      intro x hx
      rcases List.mem_cons.mp hx with hx | hx
      · rw [hx]
        exact hsp
      · exact hacc x hx

theorem pySplitAux_subset : ∀ (l acc : List Char) (t : List Char),
    t ∈ pySplitAux l acc → ∀ c ∈ t, c ∈ l ∨ c ∈ acc := by
  intro l
  induction l with
  | nil =>
    intro acc t ht c hc
    unfold pySplitAux at ht
    by_cases h : acc = []
    · simp [h] at ht
    · simp only [h, if_false, List.mem_singleton] at ht
      subst ht
      exact Or.inr (List.mem_reverse.mp hc)
  | cons x rest ih =>
    intro acc t ht c hc
    unfold pySplitAux at ht
    by_cases hsp : pySpace x = true
    · simp only [hsp, if_true] at ht
      by_cases h : acc = []
      · simp only [h, if_true] at ht
        rcases ih [] t ht c hc with hm | hm
        · exact Or.inl (List.mem_cons_of_mem x hm)
        · simp at hm
      · simp only [h, if_false, List.mem_cons] at ht
        rcases ht with ht | ht
        · subst ht
          exact Or.inr (List.mem_reverse.mp hc)
        · rcases ih [] t ht c hc with hm | hm
          · exact Or.inl (List.mem_cons_of_mem x hm)
          · simp at hm
    · simp only [Bool.not_eq_true] at hsp
      simp only [hsp, if_false] at ht
      rcases ih (x :: acc) t ht c hc with hm | hm
      · exact Or.inl (List.mem_cons_of_mem x hm)
      · rcases List.mem_cons.mp hm with hm | hm
        · exact Or.inl (hm ▸ List.mem_cons_self x rest)
        · exact Or.inr hm

theorem pySplitAux_append_nospace : ∀ (t l acc : List Char),
    (∀ c ∈ t, pySpace c = false) →
    pySplitAux (t ++ l) acc = pySplitAux l (t.reverse ++ acc) := by
  intro t
  induction t with
  | nil => intro l acc _; simp
  | cons c t0 ih =>
    intro l acc ht
    have hc : pySpace c = false := ht c (List.mem_cons_self c t0)
    simp only [List.cons_append]
    rw [pySplitAux_cons]
    simp only [hc, if_false]
    rw [ih l (c :: acc) (fun x hx => ht x (List.mem_cons_of_mem c hx))]
    simp

theorem pySplit_joinTokens : ∀ (toks : List (List Char)),
    (∀ t ∈ toks, t ≠ [] ∧ ∀ c ∈ t, pySpace c = false) →
    pySplit (joinTokens toks) = toks := by
  intro toks
  induction toks with
  | nil => intro _; rfl
  | cons t rest ih =>
    intro htoks
    obtain ⟨htne, htsp⟩ := htoks t (List.mem_cons_self t rest)
    cases rest with
    | nil =>
      show pySplit (joinTokens [t]) = [t]
      unfold joinTokens pySplit
      rw [show t = t ++ [] by simp, pySplitAux_append_nospace t [] []
        (by simpa using htsp)]
      unfold pySplitAux
      simp [htne]
    | cons t2 rest2 =>
      show pySplit (joinTokens (t :: t2 :: rest2)) = t :: t2 :: rest2
      have hjoin : joinTokens (t :: t2 :: rest2) = t ++ ' ' :: joinTokens (t2 :: rest2) := rfl
      rw [hjoin]
      unfold pySplit
      rw [pySplitAux_append_nospace t (' ' :: joinTokens (t2 :: rest2)) [] htsp]
      unfold pySplitAux
      have hsp : pySpace ' ' = true := by decide
      have hne : t.reverse ++ [] ≠ [] := by simpa using htne
      simp only [hsp, if_true, hne, if_false]
      have := ih (fun x hx => htoks x (List.mem_cons_of_mem t hx))
      unfold pySplit at this
      rw [this]
      simp

theorem mem_joinTokens : ∀ (toks : List (List Char)) (c : Char),
    c ∈ joinTokens toks → c = ' ' ∨ ∃ t ∈ toks, c ∈ t := by
  intro toks
  induction toks with
  | nil => intro c hc; simp [joinTokens] at hc
  | cons t rest ih =>
    intro c hc
    cases rest with
    | nil =>
      exact Or.inr ⟨t, List.mem_cons_self t [], by simpa [joinTokens] using hc⟩
    | cons t2 rest2 =>
      have hj : joinTokens (t :: t2 :: rest2) = t ++ ' ' :: joinTokens (t2 :: rest2) := rfl
      rw [hj] at hc
      rcases List.mem_append.mp hc with hm | hm
      · exact Or.inr ⟨t, List.mem_cons_self t _, hm⟩
      · rcases List.mem_cons.mp hm with hm | hm
        · exact Or.inl hm
        · rcases ih c hm with h1 | ⟨t0, ht0, hct0⟩
          · exact Or.inl h1
          · exact Or.inr ⟨t0, List.mem_cons_of_mem t ht0, hct0⟩

theorem pySplit_props (l : List Char) :
    ∀ t ∈ pySplit l, t ≠ [] ∧ ∀ c ∈ t, pySpace c = false :=
  pySplitAux_props l [] (by simp)

theorem stripNormalize_mem {nfkd : String → String} {cb : Char → Bool}
    {s : String} {c : Char} (hc : c ∈ (stripNormalize nfkd cb s).data) :
    c = ' ' ∨ (c ∈ (nfkd s).data ∧ cb c = false) := by
  unfold stripNormalize collapseWs at hc
  rcases mem_joinTokens _ c hc with h1 | ⟨t, ht, hct⟩
  · exact Or.inl h1
  · rcases pySplitAux_subset _ [] t ht c hct with hm | hm
    · rcases List.mem_filter.mp hm with ⟨hmem, hpb⟩
      exact Or.inr ⟨hmem, by simpa using hpb⟩
    · simp at hm

theorem stripNormalize_idem (nfkd : String → String) (cb : Char → Bool)
    (decompStable : Char → Prop)
    (H1 : ∀ s : String, (∀ c ∈ s.data, cb c = false ∧ decompStable c) → nfkd s = s)
    (H2 : ∀ s : String, ∀ c ∈ (nfkd s).data, decompStable c)
    (H3 : cb ' ' = false) (H4 : decompStable ' ') (s : String) :
    stripNormalize nfkd cb (stripNormalize nfkd cb s) = stripNormalize nfkd cb s := by
  set r := stripNormalize nfkd cb s with hr
  have hchars : ∀ c ∈ r.data, cb c = false ∧ decompStable c := by
    intro c hc
    rcases stripNormalize_mem hc with h1 | ⟨hmem, hcb⟩
    · rw [h1]
      exact ⟨H3, H4⟩
    · exact ⟨hcb, H2 s c hmem⟩
  have hn : nfkd r = r := H1 r hchars
  show stripNormalize nfkd cb r = r
  unfold stripNormalize
  rw [hn]
  have hfil : r.data.filter (fun c => !cb c) = r.data := by
    rw [List.filter_eq_self]
    intro c hc
    simpa using (hchars c hc).1
  rw [hfil]
  have hdata : r.data = joinTokens (pySplit ((nfkd s).data.filter (fun c => !cb c))) := by
    rw [hr]
    rfl
  unfold collapseWs
  rw [hdata, pySplit_joinTokens _ (pySplit_props _), ← hdata]

theorem runPipeline_ok_dissect {nfkd : String → String} {combining : Char → Bool}
    {fb : String → Option Date} {df : DataFrame} {res : ExportResult}
    (h : runPipeline nfkd combining fb df = .ok res) :
    requiredCols.filter
      (fun c => decide (c ∉ colNames (normalizeStage nfkd combining df))) = [] ∧
    ∃ df2, addIsoColumns fb (normalizeStage nfkd combining df) = .ok df2 ∧
      res = ⟨df2, "utf-8-sig", false, true⟩ := by
  unfold runPipeline at h
  dsimp only at h
  split at h
  · exact absurd h (by simp)
  · rename_i hmiss
    refine ⟨by simpa using hmiss, ?_⟩
    split at h
    case h_1 => simp at h
    case h_2 df2 hadd =>
      split at h
      case h_1 => simp at h
      case h_2 =>
        simp only [Except.ok.injEq] at h
        exact ⟨df2, hadd, h.symm⟩

theorem parseTrimmed_of_blank {fb : String → Option Date} {s : String}
    (h : s = "" ∨ pyLower s ∈ sentinels) : parseTrimmed fb s = Option.none := by
  unfold parseTrimmed
  simp [h]

theorem parseTrimmed_of_strict2 {fb : String → Option Date} {s : String} {d : Date}
    (h : ¬(s = "" ∨ pyLower s ∈ sentinels)) (h2 : strptime_dmy 2 s = some d) :
    parseTrimmed fb s = some d := by
  unfold parseTrimmed
  simp [h, h2]

theorem parseTrimmed_of_strict4 {fb : String → Option Date} {s : String} {d : Date}
    (h : ¬(s = "" ∨ pyLower s ∈ sentinels)) (h2 : strptime_dmy 2 s = Option.none)
    (h4 : strptime_dmy 4 s = some d) : parseTrimmed fb s = some d := by
  unfold parseTrimmed
  simp [h, h2, h4]

theorem parseTrimmed_of_fallback {fb : String → Option Date} {s : String}
    (h : ¬(s = "" ∨ pyLower s ∈ sentinels)) (h2 : strptime_dmy 2 s = Option.none)
    (h4 : strptime_dmy 4 s = Option.none) : parseTrimmed fb s = fb s := by
  unfold parseTrimmed
  simp [h, h2, h4]

theorem parse_date_ddmmy_eq_trimmed {fb : String → Option Date} {v : CellValue}
    (h : v ≠ CellValue.none) :
    parse_date_ddmmy fb v = parseTrimmed fb (pyStrip (pyStr v)) := by
  cases v with
  | none => exact absurd rfl h
  | nan => rfl
  | str s => rfl

theorem addIsoColumns_error {fb : String → Option Date} {df : DataFrame}
    {e : PipeError} (h : addIsoColumns fb df = .error e) : ∃ n, e = .keyError n := by
  unfold addIsoColumns at h
  split at h
  case h_1 => simp at h
  case h_2 =>
    simp only [Except.error.injEq] at h
    exact ⟨"start_date", h.symm⟩
  case h_3 =>
    simp only [Except.error.injEq] at h
    exact ⟨"end_date", h.symm⟩

theorem badRows_error {df : DataFrame} {rawName isoName : String} {e : PipeError}
    (h : badRows df rawName isoName = .error e) : ∃ n, e = .keyError n := by
  unfold badRows at h
  split at h
  case h_1 => simp at h
  case h_2 =>
    simp only [Except.error.injEq] at h
    exact ⟨"event_id", h.symm⟩
  case h_3 =>
    simp only [Except.error.injEq] at h
    exact ⟨rawName, h.symm⟩
  case h_4 =>
    simp only [Except.error.injEq] at h
    exact ⟨isoName, h.symm⟩

theorem validate_error {df : DataFrame} {e : PipeError}
    (h : validate df = .error e) :
    (∃ n, e = .keyError n) ∨ ∃ a b, e = .isoCheckFailed a b := by
  unfold validate at h
  split at h
  case h_1 he =>
    simp only [Except.error.injEq] at h
    exact Or.inl (h ▸ badRows_error he)
  case h_2 =>
    split at h
    case h_1 he =>
      simp only [Except.error.injEq] at h
      exact Or.inl (h ▸ badRows_error he)
    case h_2 =>
      split at h
      · simp only [Except.error.injEq] at h
        exact Or.inr ⟨_, _, h.symm⟩
      · simp at h

theorem isoCells_member_match {fb : String → Option Date}
    (hfb : ∀ s d, fb s = some d → isValidDate d = true) {col : List CellValue}
    {c : CellValue} {s : String} (hc : c ∈ isoCells fb col)
    (hcs : c = CellValue.str s) (hsne : s ≠ "") : isoMatch s = true := by
  unfold isoCells at hc
  simp only [List.mem_map] at hc
  obtain ⟨v, _, hv⟩ := hc
  rw [hcs] at hv
  have hs : s = isoCell (parse_date_ddmmy fb v) := by
    injection hv.symm
  cases hp : parse_date_ddmmy fb v with
  | none =>
    rw [hp] at hs
    exact absurd hs hsne
  | some d =>
    rw [hp] at hs
    rw [hs]
    exact isoMatch_isoformat (parse_date_ddmmy_valid hfb v d hp)

theorem filter_isoBad_nil {fb : String → Option Date}
    (hfb : ∀ s d, fb s = some d → isValidDate d = true)
    (ev raw col : List CellValue) :
    ((ev.zip (raw.zip (isoCells fb col))).filter (fun t => isoBad t.2.2)) = [] := by
  rw [List.filter_eq_nil_iff]
  intro t ht
  rcases t with ⟨a, b, c⟩
  have h2 := (List.of_mem_zip ht).2
  have h3 := (List.of_mem_zip h2).2
  simp [isoBad_isoCells hfb h3]

/-! The claims. -/

/-- C1: parse_date_ddmmy returns absent for a null cell, and for a cell
whose trimmed stringification is empty or, lowercased, one of the
sentinels nan, none, null; otherwise it returns the result of the
first successful strict parse against day/month/two-digit-year then
day/month/four-digit-year, in that order; and when both strict parses
fail it returns exactly what the tolerant dayfirst parser yields on
the trimmed string (absent when that parser abstains). -/
theorem C1_parse_date_ddmmy_characterization :
    ∀ (fallback : String → Option Date) (v : CellValue),
      (v = CellValue.none → parse_date_ddmmy fallback v = Option.none) ∧
      (v ≠ CellValue.none →
        ((pyStrip (pyStr v) = "" ∨ pyLower (pyStrip (pyStr v)) ∈ sentinels) →
          parse_date_ddmmy fallback v = Option.none) ∧
        (¬(pyStrip (pyStr v) = "" ∨ pyLower (pyStrip (pyStr v)) ∈ sentinels) →
          (∀ d, strptime_dmy 2 (pyStrip (pyStr v)) = some d →
            parse_date_ddmmy fallback v = some d) ∧
          (strptime_dmy 2 (pyStrip (pyStr v)) = Option.none →
            ∀ d, strptime_dmy 4 (pyStrip (pyStr v)) = some d →
              parse_date_ddmmy fallback v = some d) ∧
          (strptime_dmy 2 (pyStrip (pyStr v)) = Option.none →
            strptime_dmy 4 (pyStrip (pyStr v)) = Option.none →
              parse_date_ddmmy fallback v = fallback (pyStrip (pyStr v))))) := by
  intro fallback v
  constructor
  · intro h
    rw [h]
    rfl
  · intro hv
    rw [parse_date_ddmmy_eq_trimmed hv]
    refine ⟨fun h => parseTrimmed_of_blank h, fun h => ⟨?_, ?_, ?_⟩⟩
    · intro d h2
      exact parseTrimmed_of_strict2 h h2
    · intro h2 d h4
      exact parseTrimmed_of_strict4 h h2 h4
    · intro h2 h4
      exact parseTrimmed_of_fallback h h2 h4

/-- Witness for C1: concrete cells exercising the null case, the
sentinel case, both strict formats (with surrounding whitespace
stripped) and the fallback handoff. -/
theorem C1_witness :
    parse_date_ddmmy constFallback (CellValue.str " 05/03/24 ") = some ⟨2024, 3, 5⟩ ∧
    parse_date_ddmmy constFallback (CellValue.str "07/08/1999") = some ⟨1999, 8, 7⟩ ∧
    parse_date_ddmmy constFallback (CellValue.str "garbage") = constFallback "garbage" ∧
    parse_date_ddmmy constFallback (CellValue.str " NULL ") = Option.none ∧
    parse_date_ddmmy constFallback CellValue.none = Option.none := by
  refine ⟨?_, ?_, ?_, ?_, ?_⟩
  · exact (((C1_parse_date_ddmmy_characterization constFallback
      (CellValue.str " 05/03/24 ")).2 (by decide)).2 (by decide)).1 _ (by decide)
  · exact ((((C1_parse_date_ddmmy_characterization constFallback
      (CellValue.str "07/08/1999")).2 (by decide)).2 (by decide)).2).1 (by decide) _ (by decide)
  · exact ((((C1_parse_date_ddmmy_characterization constFallback
      (CellValue.str "garbage")).2 (by decide)).2 (by decide)).2).2 (by decide) (by decide)
  · exact (((C1_parse_date_ddmmy_characterization constFallback
      (CellValue.str " NULL ")).2 (by decide)).1 (by decide))
  · exact (C1_parse_date_ddmmy_characterization constFallback CellValue.none).1 rfl

/-- C6: the documented examples of the parser: 05/03/24 and 05/03/2024
both parse to 2024-03-05, while the empty string, the NaN text and
the null cell parse to absent and render to the empty ISO string. -/
theorem C6_parse_examples :
    ∀ fallback : String → Option Date,
      parse_date_ddmmy fallback (CellValue.str "05/03/24") = some ⟨2024, 3, 5⟩ ∧
      parse_date_ddmmy fallback (CellValue.str "05/03/2024") = some ⟨2024, 3, 5⟩ ∧
      parse_date_ddmmy fallback (CellValue.str "") = Option.none ∧
      parse_date_ddmmy fallback (CellValue.str "NaN") = Option.none ∧
      parse_date_ddmmy fallback CellValue.none = Option.none ∧
      isoCell (parse_date_ddmmy fallback (CellValue.str "")) = "" ∧
      isoCell (parse_date_ddmmy fallback (CellValue.str "NaN")) = "" ∧
      isoCell (parse_date_ddmmy fallback CellValue.none) = "" ∧
      isoCell (parse_date_ddmmy fallback (CellValue.str "05/03/24")) = "2024-03-05" := by
  intro fallback
  exact ⟨rfl, rfl, rfl, rfl, rfl, rfl, rfl, rfl, rfl⟩

/-- C9: for any date column, the unparsable count computed by the
diagnostics equals the number of rows whose parsed date is absent
while the stringified, stripped raw value is non-empty. -/
theorem C9_unparsable_count :
    ∀ (fallback : String → Option Date) (col : List CellValue),
      unparsableCount fallback col =
        col.countP (fun v =>
          (parse_date_ddmmy fallback v).isNone &&
          decide (pyStrip (pyStr v) ≠ "")) := by
  intro fallback col
  exact unparsableCount_eq_countP fallback col

/-- C10: a NaN cell (the loader marker for a blank CSV cell) parses to
absent, yet its stringification strips to the non-empty text nan, so
every such row is counted as unparsable by the diagnostics. -/
theorem C10_nan_counted_unparsable :
    ∀ (fallback : String → Option Date) (col : List CellValue),
      parse_date_ddmmy fallback CellValue.nan = Option.none ∧
      pyStrip (pyStr CellValue.nan) = "nan" ∧
      col.countP isNanCell ≤ unparsableCount fallback col := by
  intro fallback col
  refine ⟨rfl, rfl, ?_⟩
  rw [unparsableCount_eq_countP]
  apply List.countP_mono_left
  intro v _ hp
  have hv : v = CellValue.nan := by
    cases v <;> simp [isNanCell] at hp ⊢
  rw [hv]
  rfl

/-- C7: under the Unicode facts that a string of non-combining,
decomposition-stable characters is NFKD-stable, that NFKD output
consists of decomposition-stable characters, and that the space
character is non-combining and decomposition-stable, the
remove_diacritics transform is idempotent on every cell, its string
output contains no combining-mark character, and it is the identity on
every non-string cell. -/
theorem C7_remove_diacritics_properties :
    ∀ (nfkd : String → String) (combining : Char → Bool) (decompStable : Char → Prop),
      (∀ s : String, (∀ c ∈ s.data, combining c = false ∧ decompStable c) → nfkd s = s) →
      (∀ s : String, ∀ c ∈ (nfkd s).data, decompStable c) →
      combining ' ' = false → decompStable ' ' →
      (∀ v : CellValue,
        remove_diacritics nfkd combining (remove_diacritics nfkd combining v) =
          remove_diacritics nfkd combining v) ∧
      (∀ s : String, ∀ c ∈ (stripNormalize nfkd combining s).data,
        combining c = false) ∧
      (∀ v : CellValue, (∀ s, v ≠ CellValue.str s) →
        remove_diacritics nfkd combining v = v) := by
  intro nfkd cb ds H1 H2 H3 H4
  refine ⟨?_, ?_, ?_⟩
  · intro v
    cases v with
    | none => rfl
    | nan => rfl
    | str s =>
      show CellValue.str (stripNormalize nfkd cb (stripNormalize nfkd cb s)) =
        CellValue.str (stripNormalize nfkd cb s)
      rw [stripNormalize_idem nfkd cb ds H1 H2 H3 H4 s]
  · intro s c hc
    rcases stripNormalize_mem hc with h1 | ⟨_, hcb⟩
    · rw [h1]
      exact H3
    · exact hcb
  · intro v hv
    cases v with
    | none => rfl
    | nan => rfl
    | str s => exact absurd rfl (hv s)

/-- Witness for C7: the trivial decomposition instance on a concrete
cell with repeated inner whitespace, plus the identity on the NaN
marker. -/
theorem C7_witness :
    remove_diacritics idNfkd noCombining
        (remove_diacritics idNfkd noCombining (CellValue.str " a   b  c ")) =
      remove_diacritics idNfkd noCombining (CellValue.str " a   b  c ") ∧
    remove_diacritics idNfkd noCombining CellValue.nan = CellValue.nan := by
  have h := C7_remove_diacritics_properties idNfkd noCombining (fun _ => True)
    (fun s _ => rfl) (fun s c _ => trivial) (by decide) trivial
  exact ⟨h.1 (CellValue.str " a   b  c "),
    h.2.2 CellValue.nan (fun s hs => CellValue.noConfusion hs)⟩

/-- C8: when a required date column is absent the pipeline stops with
the missing-column error naming exactly the absent required columns in
order, and when both are present no missing-column error is ever
raised. -/
theorem C8_missing_columns :
    ∀ (nfkd : String → String) (combining : Char → Bool)
      (fallback : String → Option Date) (df : DataFrame),
      (requiredCols.filter (fun c => decide (c ∉ colNames df)) ≠ [] →
        runPipeline nfkd combining fallback df =
          .error (.missingColumns
            (requiredCols.filter (fun c => decide (c ∉ colNames df))))) ∧
      ("start_date" ∈ colNames df → "end_date" ∈ colNames df →
        ∀ m, runPipeline nfkd combining fallback df ≠ .error (.missingColumns m)) := by
  intro nfkd cb fb df
  have hnames := colNames_normalizeStage nfkd cb df
  constructor
  · intro hmiss
    unfold runPipeline
    dsimp only
    rw [hnames, if_pos hmiss]
  · intro hs he m hcontra
    unfold runPipeline at hcontra
    dsimp only at hcontra
    rw [hnames] at hcontra
    have hfil : requiredCols.filter (fun c => decide (c ∉ colNames df)) = [] := by
      simp [requiredCols, hs, he]
    rw [hfil] at hcontra
    simp only [ne_eq, not_true_eq_false, if_false, not_false_eq_true, if_neg] at hcontra
    split at hcontra
    case h_1 e hadd =>
      simp only [Except.error.injEq] at hcontra
      obtain ⟨n, hn⟩ := addIsoColumns_error hadd
      rw [hn] at hcontra
      cases hcontra
    case h_2 df2 hadd =>
      split at hcontra
      case h_1 e hval =>
        simp only [Except.error.injEq] at hcontra
        rcases validate_error hval with ⟨n, hn⟩ | ⟨a, b, hab⟩
        · rw [hn] at hcontra
          cases hcontra
        · rw [hab] at hcontra
          cases hcontra
      case h_2 => simp at hcontra

/-- Witness for C8: the concrete frame lacking only end_date stops
with the error naming exactly that column, while the complete sample
frame raises no missing-column error. -/
theorem C8_witness :
    runPipeline idNfkd noCombining noFallback missingEndFrame =
      .error (.missingColumns ["end_date"]) ∧
    runPipeline idNfkd noCombining noFallback sampleFrame ≠
      .error (.missingColumns ["end_date"]) := by
  constructor
  · have h := (C8_missing_columns idNfkd noCombining noFallback missingEndFrame).1
      (by decide)
    rw [show requiredCols.filter
        (fun c => decide (c ∉ colNames missingEndFrame)) = ["end_date"]
      from by decide] at h
    exact h
  · exact (C8_missing_columns idNfkd noCombining noFallback sampleFrame).2
      (by decide) (by decide) ["end_date"]

/-- C2: when the tolerant fallback can only produce valid calendar
dates (as the library parser does) and the table carries the event_id
and the two required date columns, the pipeline always reaches the
export: the formatting ValueError branch is unreachable, and every
non-empty string stored in either iso column matches the canonical
four-two-two digit pattern. -/
theorem C2_iso_invariant :
    ∀ (nfkd : String → String) (combining : Char → Bool)
      (fallback : String → Option Date),
      (∀ s d, fallback s = some d → isValidDate d = true) →
      ∀ df : DataFrame,
        "start_date" ∈ colNames df → "end_date" ∈ colNames df →
        "event_id" ∈ colNames df →
        ∃ res : ExportResult,
          runPipeline nfkd combining fallback df = .ok res ∧
          ∀ name, (name = "start_date_iso" ∨ name = "end_date_iso") →
            ∀ col, getCol res.frame name = some col →
              ∀ c ∈ col, ∀ s, c = CellValue.str s → s ≠ "" → isoMatch s = true := by
  intro nfkd cb fb hfb df hs he hev
  have hnames := colNames_normalizeStage nfkd cb df
  have hs1 : "start_date" ∈ colNames (normalizeStage nfkd cb df) := by rw [hnames]; exact hs
  have he1 : "end_date" ∈ colNames (normalizeStage nfkd cb df) := by rw [hnames]; exact he
  have hev1 : "event_id" ∈ colNames (normalizeStage nfkd cb df) := by rw [hnames]; exact hev
  obtain ⟨sCol, hsCol⟩ := getCol_isSome_of_mem hs1
  obtain ⟨eCol, heCol⟩ := getCol_isSome_of_mem he1
  have hadd := @addIsoColumns_eq_ok fb _ _ _ hsCol heCol
  set df1 := normalizeStage nfkd cb df with hdf1
  set df2 := setCol (setCol df1 "start_date_iso" (isoCells fb sCol))
    "end_date_iso" (isoCells fb eCol) with hdf2
  have hgetS : getCol df2 "start_date_iso" = some (isoCells fb sCol) := by
    rw [hdf2, getCol_setCol_ne _ _ (by decide)]
    exact getCol_setCol_self _ _ _
  have hgetE : getCol df2 "end_date_iso" = some (isoCells fb eCol) :=
    getCol_setCol_self _ _ _
  have hrawS : getCol df2 "start_date" = some sCol := by
    rw [hdf2, getCol_setCol_ne _ _ (by decide), getCol_setCol_ne _ _ (by decide)]
    exact hsCol
  have hrawE : getCol df2 "end_date" = some eCol := by
    rw [hdf2, getCol_setCol_ne _ _ (by decide), getCol_setCol_ne _ _ (by decide)]
    exact heCol
  have hev2 : "event_id" ∈ colNames df2 := by
    rw [hdf2]
    exact mem_colNames_setCol _ (mem_colNames_setCol _ hev1)
  obtain ⟨evCol, hevCol⟩ := getCol_isSome_of_mem hev2
  have hbs := badRows_eq_ok hevCol hrawS hgetS
  have hbe := badRows_eq_ok hevCol hrawE hgetE
  rw [filter_isoBad_nil hfb] at hbs hbe
  have hmiss : requiredCols.filter (fun c => decide (c ∉ colNames df1)) = [] := by
    simp [requiredCols, hs1, he1]
  have hrun := runPipeline_eq_of_stages hmiss hadd hbs hbe
  simp only [ne_eq, not_true_eq_false, or_self, if_false, not_false_eq_true,
    if_neg] at hrun
  refine ⟨⟨df2, "utf-8-sig", false, true⟩, hrun, ?_⟩
  intro name hname col hcol c hc s hcs hsne
  rcases hname with h1 | h1
  · rw [h1] at hcol
    rw [show (ExportResult.mk df2 "utf-8-sig" false true).frame = df2 from rfl,
      hgetS] at hcol
    simp only [Option.some_inj] at hcol
    rw [← hcol] at hc
    exact isoCells_member_match hfb hc hcs hsne
  · rw [h1] at hcol
    rw [show (ExportResult.mk df2 "utf-8-sig" false true).frame = df2 from rfl,
      hgetE] at hcol
    simp only [Option.some_inj] at hcol
    rw [← hcol] at hc
    exact isoCells_member_match hfb hc hcs hsne

/-- Witness for C2: the sample frame under the abstaining fallback
exports exactly the expected table, whose iso columns hold matching
or empty strings. -/
theorem C2_witness :
    ∃ res : ExportResult,
      runPipeline idNfkd noCombining noFallback sampleFrame = .ok res ∧
      ∀ name, (name = "start_date_iso" ∨ name = "end_date_iso") →
        ∀ col, getCol res.frame name = some col →
          ∀ c ∈ col, ∀ s, c = CellValue.str s → s ≠ "" → isoMatch s = true :=
  C2_iso_invariant idNfkd noCombining noFallback
    (fun s d h => Option.noConfusion h) sampleFrame
    (by decide) (by decide) (by decide)

/-- C4: once the schema check and the column lookups succeed, the
pipeline stops with the formatting ValueError exactly when one of the
two offending-row sets is non-empty; the reported samples are the
first five offending rows of each column; when both sets are empty the
run exports; and whenever the fallback yields only valid dates (so
unparsable rows merely render as empty strings) both sets are empty,
so unparsable inputs alone never abort the run. -/
theorem C4_validator_abort_iff :
    ∀ (nfkd : String → String) (combining : Char → Bool)
      (fallback : String → Option Date) (df df2 : DataFrame)
      (bs be : List (CellValue × CellValue × CellValue)),
      requiredCols.filter
        (fun c => decide (c ∉ colNames (normalizeStage nfkd combining df))) = [] →
      addIsoColumns fallback (normalizeStage nfkd combining df) = .ok df2 →
      badRows df2 "start_date" "start_date_iso" = .ok bs →
      badRows df2 "end_date" "end_date_iso" = .ok be →
      ((bs ≠ [] ∨ be ≠ [] ↔
        runPipeline nfkd combining fallback df =
          .error (.isoCheckFailed (bs.take 5) (be.take 5))) ∧
      (∀ sSamp eSamp, runPipeline nfkd combining fallback df =
          .error (.isoCheckFailed sSamp eSamp) →
        sSamp.length ≤ 5 ∧ eSamp.length ≤ 5) ∧
      (bs = [] → be = [] →
        runPipeline nfkd combining fallback df =
          .ok ⟨df2, "utf-8-sig", false, true⟩) ∧
      ((∀ s d, fallback s = some d → isValidDate d = true) →
        bs = [] ∧ be = [])) := by
  intro nfkd cb fb df df2 bs be hmiss hadd hbs hbe
  have hrun := runPipeline_eq_of_stages hmiss hadd hbs hbe
  refine ⟨⟨?_, ?_⟩, ?_, ?_, ?_⟩
  · intro h
    rw [hrun, if_pos h]
  · intro h
    by_cases hc : bs ≠ [] ∨ be ≠ []
    · exact hc
    · rw [hrun, if_neg hc] at h
      cases h
  · intro sSamp eSamp h
    by_cases hc : bs ≠ [] ∨ be ≠ []
    · rw [hrun, if_pos hc] at h
      simp only [Except.error.injEq, PipeError.isoCheckFailed.injEq] at h
      obtain ⟨h1, h2⟩ := h
      rw [← h1, ← h2]
      exact ⟨List.length_take_le 5 bs, List.length_take_le 5 be⟩
    · rw [hrun, if_neg hc] at h
      cases h
  · intro h1 h2
    rw [hrun, if_neg (by simp [h1, h2])]
  · intro hfb
    obtain ⟨sCol, eCol, hsCol, heCol, hdf2⟩ := addIsoColumns_ok hadd
    have hgetS : getCol df2 "start_date_iso" = some (isoCells fb sCol) := by
      rw [hdf2, getCol_setCol_ne _ _ (by decide)]
      exact getCol_setCol_self _ _ _
    have hgetE : getCol df2 "end_date_iso" = some (isoCells fb eCol) := by
      rw [hdf2]
      exact getCol_setCol_self _ _ _
    obtain ⟨ev, raw, iso, _, _, hiso, hbseq⟩ := badRows_ok hbs
    obtain ⟨ev2, raw2, iso2, _, _, hiso2, hbeeq⟩ := badRows_ok hbe
    rw [hgetS] at hiso
    rw [hgetE] at hiso2
    simp only [Option.some_inj] at hiso hiso2
    constructor
    · rw [hbseq, ← hiso]
      exact filter_isoBad_nil hfb _ _ _
    · rw [hbeeq, ← hiso2]
      exact filter_isoBad_nil hfb _ _ _

/-- Witness for C4: on the sample frame the offending sets are empty
and the run exports the expected table. -/
theorem C4_witness :
    runPipeline idNfkd noCombining noFallback sampleFrame = .ok sampleExport := by
  have h := C4_validator_abort_iff idNfkd noCombining noFallback sampleFrame
    sampleExport.frame [] [] (by decide) (by decide) (by decide) (by decide)
  exact h.2.2.1 rfl rfl

/-- C5 (amended): for every rectangular input whose columns do not
already use the two derived labels, a successful run exports the same
row count, the original column sequence followed by exactly
start_date_iso and end_date_iso, still rectangular, written with the
utf-8-sig encoding, no index column and the header row. When an input
column already carries a derived label the assignment overwrites that
column in place instead of appending (see the counterexample). -/
theorem C5_export_shape :
    ∀ (nfkd : String → String) (combining : Char → Bool)
      (fallback : String → Option Date) (df : DataFrame) (res : ExportResult),
      Rect df →
      "start_date_iso" ∉ colNames df →
      "end_date_iso" ∉ colNames df →
      runPipeline nfkd combining fallback df = .ok res →
      colNames res.frame = colNames df ++ ["start_date_iso", "end_date_iso"] ∧
      nRows res.frame = nRows df ∧
      Rect res.frame ∧
      res.encoding = "utf-8-sig" ∧ res.index = false ∧ res.header = true := by
  intro nfkd cb fb df res hrect h1 h2 hok
  obtain ⟨hmiss, df2, hadd, hres⟩ := runPipeline_ok_dissect hok
  obtain ⟨sCol, eCol, hsCol, heCol, hdf2⟩ := addIsoColumns_ok hadd
  have hnames := colNames_normalizeStage nfkd cb df
  have hrect1 : Rect (normalizeStage nfkd cb df) := Rect_normalizeStage nfkd cb df hrect
  have hnrows1 := nRows_normalizeStage nfkd cb df
  have hne1 : (normalizeStage nfkd cb df).cols ≠ [] := cols_ne_nil_of_getCol hsCol
  have hlenS : sCol.length = nRows (normalizeStage nfkd cb df) := length_getCol hrect1 hsCol
  have hlenE : eCol.length = nRows (normalizeStage nfkd cb df) := length_getCol hrect1 heCol
  have hisoS : (isoCells fb sCol).length = nRows (normalizeStage nfkd cb df) := by
    simpa [isoCells] using hlenS
  have hisoE : (isoCells fb eCol).length = nRows (normalizeStage nfkd cb df) := by
    simpa [isoCells] using hlenE
  have h1n : "start_date_iso" ∉ colNames (normalizeStage nfkd cb df) := by
    rw [hnames]; exact h1
  have h2n : "end_date_iso" ∉ colNames (normalizeStage nfkd cb df) := by
    rw [hnames]; exact h2
  have hnamesA : colNames (setCol (normalizeStage nfkd cb df) "start_date_iso"
      (isoCells fb sCol)) = colNames (normalizeStage nfkd cb df) ++ ["start_date_iso"] :=
    colNames_setCol_not_mem _ h1n
  have h2A : "end_date_iso" ∉ colNames (setCol (normalizeStage nfkd cb df)
      "start_date_iso" (isoCells fb sCol)) := by
    rw [hnamesA]
    intro hmem
    rcases List.mem_append.mp hmem with hm | hm
    · exact h2n hm
    · simp at hm
  have hneA : (setCol (normalizeStage nfkd cb df) "start_date_iso"
      (isoCells fb sCol)).cols ≠ [] := cols_ne_nil_setCol _ _ _ hne1
  have hnrowsA : nRows (setCol (normalizeStage nfkd cb df) "start_date_iso"
      (isoCells fb sCol)) = nRows (normalizeStage nfkd cb df) :=
    nRows_setCol _ hne1 hisoS
  have hrectA : Rect (setCol (normalizeStage nfkd cb df) "start_date_iso"
      (isoCells fb sCol)) := Rect_setCol _ hne1 hisoS hrect1
  have hframe : res.frame = df2 := by rw [hres]
  refine ⟨?_, ?_, ?_, by rw [hres], by rw [hres], by rw [hres]⟩
  · rw [hframe, hdf2, colNames_setCol_not_mem _ h2A, hnamesA, hnames]
    simp
  · rw [hframe, hdf2, nRows_setCol _ hneA (by rw [hnrowsA]; exact hisoE), hnrowsA,
      hnrows1]
  · rw [hframe, hdf2]
    exact Rect_setCol _ hneA (by rw [hnrowsA]; exact hisoE) hrectA

/-- Counterexample for C5 as stated: an input that already carries a
start_date_iso column is exported with that column overwritten in
place, so the output column sequence is not the input sequence
followed by the two derived labels. -/
theorem C5_counterexample :
    pipelineColNames (runPipeline idNfkd noCombining noFallback isoClashFrame) =
      some ["event_id", "start_date", "end_date", "start_date_iso", "end_date_iso"] ∧
    colNames isoClashFrame ++ ["start_date_iso", "end_date_iso"] ≠
      ["event_id", "start_date", "end_date", "start_date_iso", "end_date_iso"] ∧
    getCol isoClashFrame "start_date_iso" = some [CellValue.str "junk"] ∧
    pipelineGetCol (runPipeline idNfkd noCombining noFallback isoClashFrame)
      "start_date_iso" = some [CellValue.str "2024-03-05"] := by
  refine ⟨by decide, by decide, by decide, by decide⟩

/-- Witness for C5: the sample frame satisfies the provisos and its
export has the stated shape. -/
theorem C5_witness :
    colNames sampleExport.frame =
      colNames sampleFrame ++ ["start_date_iso", "end_date_iso"] ∧
    nRows sampleExport.frame = nRows sampleFrame ∧
    Rect sampleExport.frame ∧
    sampleExport.encoding = "utf-8-sig" ∧ sampleExport.index = false ∧
    sampleExport.header = true :=
  C5_export_shape idNfkd noCombining noFallback sampleFrame sampleExport
    (by decide) (by decide) (by decide) (by decide)

theorem readLoop_first_success {E D : Type} (tryRead : Option String → Except E D) :
    ∀ (pre : List String) (enc : String) (post : List String) (d : D)
      (lastErr : Option E),
      (∀ x ∈ pre, ∃ err, tryRead (some x) = .error err) →
      tryRead (some enc) = .ok d →
      readLoop tryRead (pre ++ enc :: post) lastErr = .ok (d, enc) := by
  intro pre
  induction pre with
  | nil =>
    intro enc post d lastErr _ henc
    rw [List.nil_append]
    unfold readLoop
    rw [henc]
  | cons x pre0 ih =>
    intro enc post d lastErr hpre henc
    obtain ⟨err, herr⟩ := hpre x (List.mem_cons_self x pre0)
    show readLoop tryRead (x :: (pre0 ++ enc :: post)) lastErr = .ok (d, enc)
    unfold readLoop
    rw [herr]
    exact ih enc post d (some err)
      (fun y hy => hpre y (List.mem_cons_of_mem x hy)) henc

theorem readLoop_all_fail {E D : Type} (tryRead : Option String → Except E D) :
    ∀ (l : List String) (lastErr : Option E),
      (∀ x ∈ l, ∃ err, tryRead (some x) = .error err) →
      ∃ le2, readLoop tryRead l lastErr = .error le2 := by
  intro l
  induction l with
  | nil =>
    intro lastErr _
    exact ⟨lastErr, rfl⟩
  | cons x l0 ih =>
    intro lastErr hl
    obtain ⟨err, herr⟩ := hl x (List.mem_cons_self x l0)
    obtain ⟨le2, hle2⟩ := ih (some err) (fun y hy => hl y (List.mem_cons_of_mem x hy))
    refine ⟨le2, ?_⟩
    unfold readLoop
    rw [herr]
    exact hle2

theorem readLoop_fail_last {E D : Type} (tryRead : Option String → Except E D) :
    ∀ (pre : List String) (last : String) (errL : E) (lastErr : Option E),
      (∀ x ∈ pre, ∃ err, tryRead (some x) = .error err) →
      tryRead (some last) = .error errL →
      readLoop tryRead (pre ++ [last]) lastErr = .error (some errL) := by
  intro pre
  induction pre with
  | nil =>
    intro last errL lastErr _ hlast
    show readLoop tryRead [last] lastErr = .error (some errL)
    unfold readLoop
    rw [hlast]
    rfl
  | cons x pre0 ih =>
    intro last errL lastErr hpre hlast
    obtain ⟨err, herr⟩ := hpre x (List.mem_cons_self x pre0)
    show readLoop tryRead (x :: (pre0 ++ [last])) lastErr = .error (some errL)
    unfold readLoop
    rw [herr]
    exact ih last errL (some err)
      (fun y hy => hpre y (List.mem_cons_of_mem x hy)) hlast

/-- C3 (amended): the decoder walks the candidate list (detector guess
first when present and non-empty, then utf-8-sig, utf-8, latin1,
windows-1252, in order, without deduplication) and accepts the first
candidate under which the read succeeds, reporting its name; when
every candidate fails it makes exactly one further attempt with no
explicit encoding; and when that final attempt also fails it
re-raises the error of the last explicit candidate (the error of the
final default attempt itself is discarded). With an abstaining
detector the candidate list is exactly the four fixed fallbacks. -/
theorem C3_encoding_resolution :
    ∀ (E D : Type) (tryRead : Option String → Except E D) (guess : Option String),
      (∀ (pre : List String) (enc : String) (post : List String) (d : D),
        encodingCandidates guess = pre ++ enc :: post →
        (∀ x ∈ pre, ∃ err, tryRead (some x) = .error err) →
        tryRead (some enc) = .ok d →
        resolveEncoding tryRead guess = .ok (d, some enc)) ∧
      (∀ d : D,
        (∀ x ∈ encodingCandidates guess, ∃ err, tryRead (some x) = .error err) →
        tryRead Option.none = .ok d →
        resolveEncoding tryRead guess = .ok (d, Option.none)) ∧
      (∀ (pre : List String) (last : String) (errL errD : E),
        encodingCandidates guess = pre ++ [last] →
        (∀ x ∈ pre, ∃ err, tryRead (some x) = .error err) →
        tryRead (some last) = .error errL →
        tryRead Option.none = .error errD →
        resolveEncoding tryRead guess = .error (some errL)) ∧
      (guess = Option.none →
        encodingCandidates guess = ["utf-8-sig", "utf-8", "latin1", "windows-1252"]) := by
  intro E D tryRead guess
  refine ⟨?_, ?_, ?_, ?_⟩
  · intro pre enc post d hsplit hpre henc
    unfold resolveEncoding
    rw [hsplit, readLoop_first_success tryRead pre enc post d Option.none hpre henc]
  · intro d hall hdef
    unfold resolveEncoding
    obtain ⟨le2, hle2⟩ := readLoop_all_fail tryRead (encodingCandidates guess)
      Option.none hall
    rw [hle2, hdef]
  · intro pre last errL errD hsplit hpre hlast hdef
    unfold resolveEncoding
    rw [hsplit, readLoop_fail_last tryRead pre last errL Option.none hpre hlast, hdef]
  · intro h
    rw [h]
    rfl

/-- Counterexample for C3 as stated: when the final default attempt
fails with its own distinct error, the loop re-raises the error of the
last explicit candidate, not the most recently encountered error of
the default attempt. -/
theorem C3_counterexample :
    resolveEncoding alwaysFailReader Option.none = .error (some "windows-1252") ∧
    alwaysFailReader Option.none = .error "default-error" ∧
    "windows-1252" ≠ "default-error" := by
  refine ⟨by decide, rfl, by decide⟩

/-- Witness for C3: the latin1 scenario of the spec, with an abstaining
detector: the third candidate succeeds and its choice is reported. -/
theorem C3_witness :
    resolveEncoding latin1Reader Option.none = .ok (7, some "latin1") ∧
    encodingCandidates Option.none = ["utf-8-sig", "utf-8", "latin1", "windows-1252"] := by
  have h := C3_encoding_resolution String Nat latin1Reader Option.none
  refine ⟨?_, h.2.2.2 rfl⟩
  refine h.1 ["utf-8-sig", "utf-8"] "latin1" ["windows-1252"] 7 (by decide) ?_ rfl
  intro x hx
  rcases List.mem_cons.mp hx with h1 | hx2
  · exact ⟨"utf-8-sig", by rw [h1]; decide⟩
  · rcases List.mem_cons.mp hx2 with h1 | h3
    · exact ⟨"utf-8", by rw [h1]; decide⟩
    · simp at h3

end Popup

